import Mathlib

/-!
Verification of the feature-extraction and labeling engine of
`scripts/ml/feature_engineering.py`.

The Python module is embedded shallowly over `ℚ`:

* every IEEE-754 float value is modelled as a rational number;
* every division site of the source is routed through a checked division
  that fails (instead of producing NaN or ±Infinity as `numpy` floats would)
  when the denominator is zero, so "the extraction returns `.ok`" expresses
  "no arithmetic step of the source can produce a NaN or an infinity";
* the two genuinely irrational primitives used by the source, `math.log`
  (for log returns) and the square root inside `np.std` (for Bollinger
  bands), are abstracted as an explicit `RealOps` parameter, and theorems
  that need facts about them (such as `log 1 = 0` and `sqrt 0 = 0`) take
  those facts as hypotheses;
* Python exceptions (the `ValueError` raised on insufficient data) are the
  `Except.error` branch.
-/

/-- Abstraction of the two irrational real-valued primitives the source
uses: the square root inside `np.std` and `math.log`.  Everything else in
the source is exact field arithmetic and is modelled directly on `ℚ`. -/
structure RealOps where
  sqrtF : ℚ → ℚ
  lnF : ℚ → ℚ

/-- A concrete `RealOps` used to instantiate witnesses; it satisfies the
two facts the theorems need (`sqrtF 0 = 0`, `lnF 1 = 0`). -/
def zeroOps : RealOps := ⟨fun _ => 0, fun _ => 0⟩

/-- Failure modes of the embedded extraction: the `ValueError` the source
raises on insufficient data, and a marker for any arithmetic step that
would produce NaN/Infinity in floating point (division by zero, or
`np.mean` of an empty array). -/
inductive ExtractError where
  | insufficientData (required actual : ℕ)
  | nanSource
deriving DecidableEq

/-- One OHLCV candle (`timestamp` is irrelevant to every claim and
omitted; the engine never reads it). -/
structure Candle where
  opn : ℚ
  high : ℚ
  low : ℚ
  close : ℚ
  volume : ℚ
deriving DecidableEq

instance {ε α : Type} [DecidableEq ε] [DecidableEq α] : DecidableEq (Except ε α)
  | .error e, .error e' => decidable_of_iff (e = e') (by simp)
  | .error _, .ok _ => .isFalse (by simp)
  | .ok _, .error _ => .isFalse (by simp)
  | .ok a, .ok a' => decidable_of_iff (a = a') (by simp)

/-- Checked division: the source's `a / b` on floats, failing where the
float code would produce NaN or ±Infinity. -/
def div? (a b : ℚ) : Except ExtractError ℚ :=
  if b = 0 then .error .nanSource else .ok (a / b)

/-- The source's `np.mean`: sum divided by length, `NaN` (here: failure)
on an empty array. -/
def meanE (l : List ℚ) : Except ExtractError ℚ :=
  div? l.sum (l.length : ℚ)

/-- Python's trailing slice `l[-n:]`.  For `n ≥ 1` this is the last
`min n (len l)` elements; for `n = 0` Python's `l[-0:]` is `l[0:]`, the
whole list. -/
def lastPy (n : ℕ) (l : List ℚ) : List ℚ :=
  if n = 0 then l else l.drop (l.length - n)

/-- Feature-extraction configuration, from `FeatureConfig` in the source.
The `macd_params` triple of the source is flattened into three fields.
Periods are machine naturals (matching the `usize` parity contract of the
Rust counterpart), so a non-positive period is a zero period. -/
structure FeatureConfig where
  sma_periods : List ℕ
  ema_periods : List ℕ
  rsi_period : ℕ
  macd_fast : ℕ
  macd_slow : ℕ
  macd_signal : ℕ
  bb_period : ℕ
  bb_std_dev : ℚ
  atr_period : ℕ
  return_periods : List ℕ
deriving DecidableEq

/-- Source `FeatureConfig.min_klines_required`: Python's
`max(a, b, ..., 50)` with `max(list, default=0)` rendered as
`List.foldr max 0`. -/
def FeatureConfig.min_klines_required (cfg : FeatureConfig) : ℕ :=
  max (cfg.sma_periods.foldr max 0)
    (max (cfg.ema_periods.foldr max 0)
      (max (cfg.rsi_period + 1)
        (max (cfg.macd_slow + cfg.macd_signal)
          (max cfg.bb_period
            (max cfg.atr_period
              (max (cfg.return_periods.foldr max 0 + 1) 50))))))

/-- The default configuration (the dataclass field defaults in the
source). -/
def defaultConfig : FeatureConfig where
  sma_periods := [5, 10, 20, 50]
  ema_periods := [12, 26]
  rsi_period := 14
  macd_fast := 12
  macd_slow := 26
  macd_signal := 9
  bb_period := 20
  bb_std_dev := 2
  atr_period := 14
  return_periods := [1, 5, 10]

/-- Source `FeatureExtractor._calculate_sma`: `0.0` when the window is
too short or the period is zero, else `np.mean(data[-period:])`. -/
def _calculate_sma (data : List ℚ) (period : ℕ) : Except ExtractError ℚ :=
  if data.length < period ∨ period = 0 then .ok 0
  else meanE (lastPy period data)

/-- Source `FeatureExtractor._calculate_ema`: seeds with the first
element of the slice and runs the forward recurrence
`ema = (value - ema) * multiplier + ema` over the rest.  The division
`2 / (period + 1)` cannot fail because `period : ℕ`. -/
def _calculate_ema (data : List ℚ) (period : ℕ) : ℚ :=
  if data.length = 0 ∨ period = 0 then 0
  else
    let multiplier : ℚ := 2 / ((period : ℚ) + 1)
    data.tail.foldl (fun ema value => (value - ema) * multiplier + ema) (data.headD 0)

/-- Source `FeatureExtractor._calculate_rsi`: neutral `50` with fewer
than `period + 1` closes; otherwise simple averages of one-bar gains and
losses over the trailing `period` differences, `100` when the average
loss is zero. -/
def _calculate_rsi (closes : List ℚ) (period : ℕ) : Except ExtractError ℚ :=
  if closes.length < period + 1 then .ok 50
  else
    let diffs := List.zipWith (fun a b => a - b) closes.tail closes
    let gains := diffs.map (fun change => if change > 0 then change else 0)
    let losses := diffs.map (fun change => if change > 0 then 0 else |change|)
    let start := gains.length - period
    do
      let avg_gain ← meanE (gains.drop start)
      let avg_loss ← meanE (losses.drop start)
      if avg_loss = 0 then pure 100
      else do
        let rs ← div? avg_gain avg_loss
        let q ← div? 100 (1 + rs)
        pure (100 - q)

/-- Source `FeatureExtractor._calculate_macd`: MACD line from the two
EMAs over the whole slice, signal line as the EMA of the MACD line
recomputed at every prefix `closes[:i]` for `i` from `slow_period` to
`len`, histogram normalized by the current price, and the signal ratio
guarded at `|signal_line| > 0.0001` and clamped to `[-1, 1]`. -/
def _calculate_macd (closes : List ℚ) (fast_period slow_period signal_period : ℕ) :
    Except ExtractError (ℚ × ℚ) :=
  let fast_ema := _calculate_ema closes fast_period
  let slow_ema := _calculate_ema closes slow_period
  let macd_line := fast_ema - slow_ema
  let macd_history := (List.range (closes.length + 1 - slow_period)).map
    (fun j => _calculate_ema (closes.take (slow_period + j)) fast_period
      - _calculate_ema (closes.take (slow_period + j)) slow_period)
  let signal_line :=
    if signal_period ≤ macd_history.length then _calculate_ema macd_history signal_period
    else macd_line
  let histogram := macd_line - signal_line
  let current_price := if closes.length = 0 then 1 else closes.getLastD 0
  (if current_price > 0 then (div? histogram current_price).map (fun x => x * 100)
    else pure 0) >>= fun norm_histogram =>
  (if |signal_line| > 1 / 10000 then (div? macd_line signal_line).map (fun x => x - 1)
    else pure 0) >>= fun signal_ratio =>
  pure (norm_histogram, max (-1) (min 1 signal_ratio))

/-- Source `FeatureExtractor._calculate_bollinger`: neutral
`(0.5, 0.0)` with fewer than `period` closes; otherwise `%B` over the
band width (default `0.5` at zero bandwidth, clamped to `[0, 1]`) and
bandwidth over the middle band (guarded at `sma > 0`).  `np.std` is the
square root of the population variance; the square root is the
`RealOps.sqrtF` oracle. -/
def _calculate_bollinger (R : RealOps) (closes : List ℚ) (period : ℕ) (std_dev_mult : ℚ) :
    Except ExtractError (ℚ × ℚ) :=
  if closes.length < period then .ok (1 / 2, 0)
  else
    let window := lastPy period closes
    meanE window >>= fun sma =>
    meanE (window.map (fun x => (x - sma) ^ 2)) >>= fun variance =>
    let std_dev := R.sqrtF variance
    let upper_band := sma + std_dev_mult * std_dev
    let lower_band := sma - std_dev_mult * std_dev
    let bandwidth := upper_band - lower_band
    let current_price := closes.getLastD 0
    (if bandwidth > 0 then div? (current_price - lower_band) bandwidth
      else pure (1 / 2)) >>= fun percent_b =>
    (if sma > 0 then div? bandwidth sma else pure 0) >>= fun bandwidth_pct =>
    pure (max 0 (min 1 percent_b), bandwidth_pct)

/-- The per-bar true ranges of the source's `_calculate_atr` loop:
`max(high - low, |high - prevClose|, |low - prevClose|)` for every bar
after the first. -/
def true_ranges_of (highs lows closes : List ℚ) : List ℚ :=
  (List.range (highs.length - 1)).map (fun j =>
    max (highs.getD (j + 1) 0 - lows.getD (j + 1) 0)
      (max |highs.getD (j + 1) 0 - closes.getD j 0| |lows.getD (j + 1) 0 - closes.getD j 0|))

/-- Source `FeatureExtractor._calculate_atr`: `0.0` with fewer than
`period + 1` bars (or mismatched array lengths); otherwise the simple
mean of the trailing `period` true ranges.  The `true_ranges < period`
branch mirrors the source even though it is unreachable from the first
guard. -/
def _calculate_atr (highs lows closes : List ℚ) (period : ℕ) : Except ExtractError ℚ :=
  if highs.length < period + 1 ∨ highs.length ≠ lows.length ∨ highs.length ≠ closes.length then
    .ok 0
  else
    let tr := true_ranges_of highs lows closes
    if tr.length < period then
      if tr.length ≠ 0 then meanE tr else .ok 0
    else meanE (lastPy period tr)

/-- The ATR feature of `FeatureExtractor.extract` (source lines
180-182): `atr / current_close` guarded at `current_close > 0`. -/
def atr_ratio_feat (highs lows closes : List ℚ) (period : ℕ) : Except ExtractError ℚ := do
  let atr ← _calculate_atr highs lows closes period
  let current_close := closes.getLastD 0
  if current_close > 0 then div? atr current_close else pure 0

/-- Source `FeatureExtractor._calculate_return`: `0.0` with at most
`period` closes or a non-positive base price, else
`current / past - 1`. -/
def _calculate_return (closes : List ℚ) (period : ℕ) : Except ExtractError ℚ :=
  if closes.length ≤ period then .ok 0
  else
    let current := closes.getLastD 0
    let past := closes.getD (closes.length - 1 - period) 0
    if past > 0 then (div? current past).map (fun x => x - 1) else .ok 0

/-- Source `FeatureExtractor._calculate_log_return`: like
`_calculate_return` but `log(current / past)`, guarded at
`past > 0 and current > 0`; `math.log` is the `RealOps.lnF` oracle. -/
def _calculate_log_return (R : RealOps) (closes : List ℚ) (period : ℕ) :
    Except ExtractError ℚ :=
  if closes.length ≤ period then .ok 0
  else
    let current := closes.getLastD 0
    let past := closes.getD (closes.length - 1 - period) 0
    if past > 0 ∧ current > 0 then (div? current past).map R.lnF else .ok 0

/-- The candle-shape features of `FeatureExtractor.extract` (source
lines 194-216): body ratio and the two shadow ratios, each guarded at
`candle_range > 0`. -/
def candle_features (opn high low close : ℚ) : Except ExtractError (ℚ × ℚ × ℚ) :=
  let candle_range := high - low
  let body := |close - opn|
  let upper_shadow := if close > opn then high - close else high - opn
  let lower_shadow := if close > opn then opn - low else close - low
  (if candle_range > 0 then div? body candle_range else pure 0) >>= fun body_ratio =>
  (if candle_range > 0 then div? upper_shadow candle_range else pure 0) >>=
    fun upper_shadow_ratio =>
  (if candle_range > 0 then div? lower_shadow candle_range else pure 0) >>=
    fun lower_shadow_ratio =>
  pure (body_ratio, upper_shadow_ratio, lower_shadow_ratio)

/-- The volume-change feature of `FeatureExtractor.extract` (source
lines 218-223): `current / previous - 1` guarded at `previous > 0` and
clamped to `[-2, 2]`; with fewer than two candles the previous volume
falls back to the current one. -/
def volume_change_of (volumes : List ℚ) : Except ExtractError ℚ :=
  let prev_volume :=
    if 2 ≤ volumes.length then volumes.getD (volumes.length - 2) 0 else volumes.getLastD 0
  let current_volume := volumes.getLastD 0
  (if prev_volume > 0 then (div? current_volume prev_volume).map (fun x => x - 1)
    else pure 0) >>= fun vc =>
  pure (max (-2) (min 2 vc))

/-- The SMA-ratio feature of `FeatureExtractor.extract` (source lines
151-154): `current_close / sma - 1` guarded at `sma > 0`. -/
def sma_ratio_feat (closes : List ℚ) (period : ℕ) : Except ExtractError ℚ := do
  let sma ← _calculate_sma closes period
  if sma > 0 then (div? (closes.getLastD 0) sma).map (fun x => x - 1) else pure 0

/-- The EMA-ratio feature of `FeatureExtractor.extract` (source lines
157-160): `current_close / ema - 1` guarded at `ema > 0`. -/
def ema_ratio_feat (closes : List ℚ) (period : ℕ) : Except ExtractError ℚ :=
  let ema := _calculate_ema closes period
  if ema > 0 then (div? (closes.getLastD 0) ema).map (fun x => x - 1) else pure 0

/-- Source `FeatureExtractor.extract`: raises (`Except.error`) on
insufficient data, otherwise assembles the 22-feature vector in the
canonical order SMA ratios, EMA ratios, RSI, MACD, Bollinger, ATR,
simple returns, log returns, candle shape. -/
def extract (R : RealOps) (cfg : FeatureConfig) (s : List Candle) :
    Except ExtractError (List ℚ) :=
  if s.length < cfg.min_klines_required then
    .error (.insufficientData cfg.min_klines_required s.length)
  else
    let closes := s.map Candle.close
    let highs := s.map Candle.high
    let lows := s.map Candle.low
    let opens := s.map Candle.opn
    let volumes := s.map Candle.volume
    let current_close := closes.getLastD 0
    do
      let sma_feats ← cfg.sma_periods.mapM (sma_ratio_feat closes)
      let ema_feats ← cfg.ema_periods.mapM (ema_ratio_feat closes)
      let rsi ← _calculate_rsi closes cfg.rsi_period
      let rsi_feat ← div? rsi 100
      let macd ← _calculate_macd closes cfg.macd_fast cfg.macd_slow cfg.macd_signal
      let bb ← _calculate_bollinger R closes cfg.bb_period cfg.bb_std_dev
      let atr_ratio ← atr_ratio_feat highs lows closes cfg.atr_period
      let rets ← cfg.return_periods.mapM (fun period => _calculate_return closes period)
      let logrets ← cfg.return_periods.mapM
        (fun period => _calculate_log_return R closes period)
      let candle ← candle_features (opens.getLastD 0) (highs.getLastD 0)
        (lows.getLastD 0) current_close
      let vc ← volume_change_of volumes
      pure (sma_feats ++ ema_feats ++ [rsi_feat] ++ [macd.1, macd.2] ++ [bb.1, bb.2]
        ++ [atr_ratio] ++ rets ++ logrets ++ [candle.1, candle.2.1, candle.2.2, vc])

/-- Source `FeatureExtractor.extract_batch`: slides a window over the
series and extracts each slice.  Python's `window_size or
min_klines_required()` treats both `None` and `0` as "use the
default".  An exception inside any slice's `extract` aborts the whole
call (`mapM` over `Except`). -/
def extract_batch (R : RealOps) (cfg : FeatureConfig) (s : List Candle)
    (window_size : Option ℕ) : Except ExtractError (List (List ℚ)) :=
  let window :=
    match window_size with
    | none => cfg.min_klines_required
    | some 0 => cfg.min_klines_required
    | some w => w
  (List.range (s.length + 1 - window)).mapM
    (fun j => extract R cfg ((s.drop j).take window))

/-- The labeling rule of `FeatureExtractor.extract_with_labels` (source
lines 290-297): `2` (up) above the threshold, `0` (down) below its
negation, else `1` (flat). -/
def labelOf (future_return threshold : ℚ) : ℕ :=
  if future_return > threshold then 2
  else if future_return < -threshold then 0
  else 1

/-- Source `FeatureExtractor.extract_with_labels`: for `i` in Python's
`range(window, len(data) - future_periods)` (rendered through
`j = i - window`), extract the slice `[i - window, i)` and label it with
the forward return `closes[i + future_periods] / closes[i] - 1`.  That
division is a raw `numpy` float division in the source (it produces
inf/NaN rather than raising), so it is modelled with total `ℚ`
division. -/
def extract_with_labels (R : RealOps) (cfg : FeatureConfig) (s : List Candle)
    (future_periods : ℕ) (threshold : ℚ) :
    Except ExtractError (List (List ℚ × ℕ)) :=
  let closes := s.map Candle.close
  let window := cfg.min_klines_required
  (List.range (s.length - future_periods - window)).mapM (fun j => do
    let i := window + j
    let features ← extract R cfg ((s.drop (i - window)).take window)
    let future_return := closes.getD (i + future_periods) 0 / closes.getD i 0 - 1
    pure (features, labelOf future_return threshold))

/-- Configuration-validation failure, from the spec's `InvalidConfig`. -/
inductive ConfigError where
  | invalidConfig
deriving DecidableEq

/-- Modelled from the spec: `validate()` is implemented only in the Rust
counterpart (`trader-analytics/src/ml/features.rs`), which is not part
of this repository's sources; the Python `FeatureConfig` has no
validation method.  Per spec section 4.2 it "fails with `InvalidConfig`
if `fast ≥ slow` for MACD, or if any configured period is
non-positive" (periods are machine naturals, so non-positive means
zero). -/
def validate (cfg : FeatureConfig) : Except ConfigError Unit :=
  if cfg.macd_slow ≤ cfg.macd_fast then .error .invalidConfig
  else if cfg.sma_periods.any (fun p => p = 0) ∨ cfg.ema_periods.any (fun p => p = 0) ∨
      cfg.rsi_period = 0 ∨ cfg.macd_fast = 0 ∨ cfg.macd_slow = 0 ∨ cfg.macd_signal = 0 ∨
      cfg.bb_period = 0 ∨ cfg.atr_period = 0 ∨
      cfg.return_periods.any (fun p => p = 0) then .error .invalidConfig
  else .ok ()

/-- The spec's formulation of `min_window_length()` (section 4.2): the
maximum over every SMA period, every EMA period, `rsi_period + 1`,
`macd_slow + macd_signal`, the Bollinger period, the ATR period,
`max(return_periods) + 1`, and the fixed floor `50`. -/
def minWindowSpec (cfg : FeatureConfig) : ℕ :=
  (cfg.sma_periods ++ cfg.ema_periods ++
    [cfg.rsi_period + 1, cfg.macd_slow + cfg.macd_signal, cfg.bb_period, cfg.atr_period,
      cfg.return_periods.foldr max 0 + 1, 50]).foldr max 0

/-- A flat candle: zero daily range at close 100, volume 1000 (the
concrete scenario of the spec's section 8). -/
def flatCandle : Candle := ⟨100, 100, 100, 100, 1000⟩

/-- The 60-candle flat series of the spec's concrete scenario. -/
def flat60 : List Candle := List.replicate 60 flatCandle

/-- A 10-candle flat series (the spec's insufficient-data scenario). -/
def flat10 : List Candle := List.replicate 10 flatCandle

/-! ## Utility lemmas for the `Except` embedding -/

theorem ok_bind {ε α β : Type} (v0 : α) (k0 : α → Except ε β) :
    (Except.ok v0 >>= k0 : Except ε β) = k0 v0 := rfl

theorem error_bind {ε α β : Type} (e0 : ε) (k0 : α → Except ε β) :
    (Except.error e0 >>= k0 : Except ε β) = .error e0 := rfl

theorem pure_eq_ok {ε α : Type} (v0 : α) : (pure v0 : Except ε α) = .ok v0 := rfl

theorem map_ok_eq {ε α β : Type} (g0 : α → β) (v0 : α) :
    ((Except.ok v0 : Except ε α).map g0) = .ok (g0 v0) := rfl

theorem div?_ok {a b : ℚ} (hb : b ≠ 0) : div? a b = .ok (a / b) := by
  simp [div?, hb]

theorem meanE_ok {l : List ℚ} (h : l ≠ []) : meanE l = .ok (l.sum / (l.length : ℚ)) := by
  have h0 : l.length ≠ 0 := fun hc => h (List.length_eq_zero.mp hc)
  have : ((l.length : ℚ)) ≠ 0 := Nat.cast_ne_zero.mpr h0
  simp [meanE, div?, this]

theorem meanE_exists_ok {l : List ℚ} (h : l ≠ []) : ∃ a, meanE l = .ok a :=
  ⟨_, meanE_ok h⟩

theorem meanE_nonneg {l : List ℚ} (hl : ∀ x ∈ l, 0 ≤ x) {a : ℚ}
    (ha : meanE l = .ok a) : 0 ≤ a := by
  rcases eq_or_ne l [] with rfl | hne
  · simp [meanE, div?] at ha
  · rw [meanE_ok hne] at ha
    cases ha
    exact div_nonneg (List.sum_nonneg hl) (by positivity)

theorem meanE_replicate {k : ℕ} {c : ℚ} (hk : k ≠ 0) :
    meanE (List.replicate k c) = .ok c := by
  rw [meanE_ok (by simp [hk])]
  have hkq : ((k : ℚ)) ≠ 0 := Nat.cast_ne_zero.mpr hk
  congr 1
  rw [List.sum_replicate, nsmul_eq_mul, List.length_replicate]
  exact mul_div_cancel_left₀ c hkq

theorem lastPy_ne_nil {l : List ℚ} (n : ℕ) (h : l ≠ []) : lastPy n l ≠ [] := by
  unfold lastPy
  split
  · exact h
  · next hn =>
    have hlen : 0 < l.length := List.length_pos.mpr h
    have : l.length - n < l.length := by omega
    simp only [ne_eq, ← List.length_eq_zero]
    rw [List.length_drop]
    omega

theorem lastPy_replicate {p n : ℕ} {c : ℚ} (hp : 1 ≤ p) (hpn : p ≤ n) :
    lastPy p (List.replicate n c) = List.replicate p c := by
  unfold lastPy
  rw [if_neg (by omega)]
  rw [List.length_replicate, List.drop_replicate]
  congr 1
  omega

theorem mapM_ok_of_forall {ε α β : Type} {f : α → Except ε β} :
    ∀ {l : List α}, (∀ a ∈ l, ∃ b, f a = .ok b) →
      ∃ bs, l.mapM f = .ok bs ∧ bs.length = l.length ∧
        ∀ (j : ℕ) (hj : j < l.length) (hb : j < bs.length),
          f (l.get ⟨j, hj⟩) = .ok (bs.get ⟨j, hb⟩)
  | [], _ => ⟨[], rfl, rfl, fun j hj => by simp at hj⟩
  | a :: l, h => by
    obtain ⟨b, hb⟩ := h a (List.mem_cons_self a l)
    obtain ⟨bs, hbs, hlen, hget⟩ :=
      mapM_ok_of_forall (l := l) (fun x hx => h x (List.mem_cons_of_mem _ hx))
    refine ⟨b :: bs, ?_, by simp [hlen], ?_⟩
    · rw [List.mapM_cons, hb]
      show (Except.ok b >>= fun b => l.mapM f >>= fun bs => pure (b :: bs)) = _
      rw [ok_bind, hbs, ok_bind]
      rfl
    · intro j hj hjb
      cases j with
      | zero => simpa using hb
      | succ k =>
        simp only [List.length_cons, Nat.succ_lt_succ_iff] at hj hjb
        simpa using hget k hj hjb

/-! ## Every guarded feature computation succeeds -/

theorem guarded_div_ok {x y : ℚ} {c : Prop} [Decidable c] (hc : c → y ≠ 0) (f : ℚ → ℚ) :
    ∃ v, (if c then (div? x y).map f else pure 0 : Except ExtractError ℚ) = .ok v := by
  split
  · next h => exact ⟨_, by rw [div?_ok (hc h), map_ok_eq]⟩
  · exact ⟨0, rfl⟩

theorem sma_ok (closes : List ℚ) (period : ℕ) :
    ∃ v, _calculate_sma closes period = .ok v := by
  unfold _calculate_sma
  split
  · exact ⟨0, rfl⟩
  · next h =>
    push_neg at h
    have hne : closes ≠ [] := by
      intro hc
      subst hc
      simp only [List.length_nil] at h
      omega
    exact meanE_exists_ok (lastPy_ne_nil _ hne)

theorem sma_ratio_feat_ok (closes : List ℚ) (period : ℕ) :
    ∃ v, sma_ratio_feat closes period = .ok v := by
  obtain ⟨s, hs⟩ := sma_ok closes period
  unfold sma_ratio_feat
  rw [hs, ok_bind]
  split
  · next hpos => exact ⟨_, by rw [div?_ok (ne_of_gt hpos), map_ok_eq]⟩
  · exact ⟨0, rfl⟩

theorem ema_ratio_feat_ok (closes : List ℚ) (period : ℕ) :
    ∃ v, ema_ratio_feat closes period = .ok v := by
  simp only [ema_ratio_feat]
  split
  · next hpos => exact ⟨_, by rw [div?_ok (ne_of_gt hpos), map_ok_eq]⟩
  · exact ⟨0, rfl⟩

theorem rsi_ok (closes : List ℚ) (period : ℕ) (hp : 1 ≤ period) :
    ∃ v, _calculate_rsi closes period = .ok v := by
  unfold _calculate_rsi
  split
  · exact ⟨50, rfl⟩
  · next h =>
    push_neg at h
    simp only []
    have hdl : (List.zipWith (fun a b => a - b) closes.tail closes).length
        = closes.length - 1 := by
      rw [List.length_zipWith, List.length_tail]
      omega
    have hglen : ((List.zipWith (fun a b => a - b) closes.tail closes).map
        (fun change => if change > 0 then change else 0)).length = closes.length - 1 := by
      rw [List.length_map, hdl]
    have hgd : ∀ (f : ℚ → ℚ),
        (((List.zipWith (fun a b => a - b) closes.tail closes).map f).drop
          (((List.zipWith (fun a b => a - b) closes.tail closes).map
            (fun change => if change > 0 then change else 0)).length - period)).length
          = period := by
      intro f
      rw [List.length_drop, List.length_map, hdl, hglen]
      omega
    have hgne : ∀ (f : ℚ → ℚ),
        ((List.zipWith (fun a b => a - b) closes.tail closes).map f).drop
          (((List.zipWith (fun a b => a - b) closes.tail closes).map
            (fun change => if change > 0 then change else 0)).length - period) ≠ [] := by
      intro f hc
      have := hgd f
      rw [hc] at this
      simp at this
      omega
    obtain ⟨g, hg⟩ := meanE_exists_ok (hgne (fun change => if change > 0 then change else 0))
    obtain ⟨l, hl⟩ := meanE_exists_ok (hgne (fun change => if change > 0 then 0 else |change|))
    rw [hg, ok_bind, hl, ok_bind]
    split
    · exact ⟨100, rfl⟩
    · next hl0 =>
      have hlmem : ∀ x ∈ (List.zipWith (fun a b => a - b) closes.tail closes).map
          (fun change => if change > 0 then 0 else |change|), 0 ≤ x := by
        intro x hx
        obtain ⟨change, _, rfl⟩ := List.mem_map.mp hx
        split
        · exact le_refl 0
        · exact abs_nonneg _
      have hgmem : ∀ x ∈ (List.zipWith (fun a b => a - b) closes.tail closes).map
          (fun change => if change > 0 then change else 0), 0 ≤ x := by
        intro x hx
        obtain ⟨change, _, rfl⟩ := List.mem_map.mp hx
        split
        · next hc => exact le_of_lt hc
        · exact le_refl 0
      have hl0' : 0 ≤ l :=
        meanE_nonneg (fun x hx => hlmem x (List.mem_of_mem_drop hx)) hl
      have hg0' : 0 ≤ g :=
        meanE_nonneg (fun x hx => hgmem x (List.mem_of_mem_drop hx)) hg
      rw [div?_ok hl0, ok_bind]
      have hrs : (1 : ℚ) + g / l ≠ 0 := by
        have : 0 ≤ g / l := div_nonneg hg0' hl0'
        intro hc
        nlinarith
      rw [div?_ok hrs, ok_bind]
      exact ⟨_, rfl⟩

theorem bind_ok_of_ok {ε α β : Type} {e0 : Except ε α} {k0 : α → Except ε β}
    (he : ∃ v0, e0 = .ok v0) (hk : ∀ v0, ∃ w0, k0 v0 = .ok w0) :
    ∃ w0, (e0 >>= k0) = .ok w0 := by
  obtain ⟨v0, rfl⟩ := he
  obtain ⟨w0, hw⟩ := hk v0
  exact ⟨w0, by rw [ok_bind, hw]⟩

theorem ite_ok {ε α : Type} {c : Prop} [Decidable c] {x y : Except ε α}
    (hx : c → ∃ a, x = .ok a) (hy : ¬c → ∃ a, y = .ok a) :
    ∃ a, (if c then x else y) = .ok a := by
  split
  · next h => exact hx h
  · next h => exact hy h

theorem map_ok_of_ok {ε : Type} {x : Except ε ℚ} (f : ℚ → ℚ) (hx : ∃ a, x = .ok a) :
    ∃ b, x.map f = .ok b := by
  obtain ⟨a, rfl⟩ := hx
  exact ⟨f a, rfl⟩

theorem div?_exists_ok {x y : ℚ} (hy : y ≠ 0) : ∃ v, div? x y = .ok v :=
  ⟨_, div?_ok hy⟩

theorem macd_ok (closes : List ℚ) (fast_period slow_period signal_period : ℕ) :
    ∃ v, _calculate_macd closes fast_period slow_period signal_period = .ok v := by
  simp only [_calculate_macd]
  apply bind_ok_of_ok
  · apply ite_ok
    · intro h
      exact map_ok_of_ok _ (div?_exists_ok (ne_of_gt h))
    · intro _
      exact ⟨0, rfl⟩
  · intro nh
    apply bind_ok_of_ok
    · apply ite_ok
      · intro h
        refine map_ok_of_ok _ (div?_exists_ok ?_)
        intro hc
        rw [hc, abs_zero] at h
        norm_num at h
      · intro _
        exact ⟨0, rfl⟩
    · intro sr
      exact ⟨_, rfl⟩

theorem bollinger_ok (R : RealOps) (closes : List ℚ) (period : ℕ) (std_dev_mult : ℚ)
    (hne : closes ≠ []) :
    ∃ v, _calculate_bollinger R closes period std_dev_mult = .ok v := by
  simp only [_calculate_bollinger]
  split
  · exact ⟨_, rfl⟩
  · apply bind_ok_of_ok (meanE_exists_ok (lastPy_ne_nil _ hne))
    intro sma
    apply bind_ok_of_ok
    · refine meanE_exists_ok ?_
      simpa using lastPy_ne_nil period hne
    · intro variance
      apply bind_ok_of_ok
      · apply ite_ok
        · intro h
          exact div?_exists_ok (ne_of_gt h)
        · intro _
          exact ⟨_, rfl⟩
      · intro pb
        apply bind_ok_of_ok
        · apply ite_ok
          · intro h
            exact div?_exists_ok (ne_of_gt h)
          · intro _
            exact ⟨0, rfl⟩
        · intro bw
          exact ⟨_, rfl⟩

theorem true_ranges_length (highs lows closes : List ℚ) :
    (true_ranges_of highs lows closes).length = highs.length - 1 := by
  simp [true_ranges_of]

theorem atr_ok (highs lows closes : List ℚ) (period : ℕ) (hp : 1 ≤ period) :
    ∃ v, _calculate_atr highs lows closes period = .ok v := by
  unfold _calculate_atr
  split
  · exact ⟨0, rfl⟩
  · next hcond =>
    push_neg at hcond
    simp only []
    split
    · split
      · next hne =>
        refine meanE_exists_ok ?_
        intro hc
        rw [hc] at hne
        simp at hne
      · exact ⟨0, rfl⟩
    · next hge =>
      push_neg at hge
      have htr : true_ranges_of highs lows closes ≠ [] := by
        intro hc
        rw [hc] at hge
        simp at hge
        omega
      exact meanE_exists_ok (lastPy_ne_nil _ htr)

theorem atr_ratio_feat_ok (highs lows closes : List ℚ) (period : ℕ) (hp : 1 ≤ period) :
    ∃ v, atr_ratio_feat highs lows closes period = .ok v := by
  unfold atr_ratio_feat
  apply bind_ok_of_ok (atr_ok highs lows closes period hp)
  intro atr
  apply ite_ok
  · intro h
    exact div?_exists_ok (ne_of_gt h)
  · intro _
    exact ⟨0, rfl⟩

theorem return_ok (closes : List ℚ) (period : ℕ) :
    ∃ v, _calculate_return closes period = .ok v := by
  unfold _calculate_return
  split
  · exact ⟨0, rfl⟩
  · simp only []
    split
    · next h =>
      exact map_ok_of_ok _ (div?_exists_ok (ne_of_gt h))
    · exact ⟨0, rfl⟩

theorem log_return_ok (R : RealOps) (closes : List ℚ) (period : ℕ) :
    ∃ v, _calculate_log_return R closes period = .ok v := by
  unfold _calculate_log_return
  split
  · exact ⟨0, rfl⟩
  · simp only []
    split
    · next h =>
      exact map_ok_of_ok _ (div?_exists_ok (ne_of_gt h.1))
    · exact ⟨0, rfl⟩

theorem candle_features_ok (opn high low close : ℚ) :
    ∃ v, candle_features opn high low close = .ok v := by
  simp only [candle_features]
  apply bind_ok_of_ok
  · exact ite_ok (fun h => div?_exists_ok (ne_of_gt h)) (fun _ => ⟨0, rfl⟩)
  · intro br
    apply bind_ok_of_ok
    · exact ite_ok (fun h => div?_exists_ok (ne_of_gt h)) (fun _ => ⟨0, rfl⟩)
    · intro us
      apply bind_ok_of_ok
      · exact ite_ok (fun h => div?_exists_ok (ne_of_gt h)) (fun _ => ⟨0, rfl⟩)
      · intro ls
        exact ⟨_, rfl⟩

theorem volume_change_of_ok (volumes : List ℚ) :
    ∃ v, volume_change_of volumes = .ok v := by
  simp only [volume_change_of]
  apply bind_ok_of_ok
  · apply ite_ok
    · intro h
      exact map_ok_of_ok _ (div?_exists_ok (ne_of_gt h))
    · intro _
      exact ⟨0, rfl⟩
  · intro vc
    exact ⟨_, rfl⟩

theorem mapM_exists_ok {ε α β : Type} {f : α → Except ε β} {l : List α}
    (h : ∀ a ∈ l, ∃ b, f a = .ok b) : ∃ bs, l.mapM f = .ok bs :=
  (mapM_ok_of_forall h).imp fun _ hbs => hbs.1

theorem min_klines_ge_50 (cfg : FeatureConfig) : 50 ≤ cfg.min_klines_required := by
  unfold FeatureConfig.min_klines_required
  omega

/-- Core success lemma: with positive RSI and ATR periods, a series at
least `min_klines_required` long always extracts without error — every
division guard in the source suffices. -/
theorem extract_ok_of_len (R : RealOps) (cfg : FeatureConfig) (s : List Candle)
    (hrsi : 1 ≤ cfg.rsi_period) (hatr : 1 ≤ cfg.atr_period)
    (hlen : cfg.min_klines_required ≤ s.length) :
    ∃ v, extract R cfg s = .ok v := by
  have h50 : 50 ≤ cfg.min_klines_required := min_klines_ge_50 cfg
  have hsne : s ≠ [] := by
    intro hc
    subst hc
    simp only [List.length_nil] at hlen
    omega
  have hcne : s.map Candle.close ≠ [] := by simpa using hsne
  simp only [extract]
  rw [if_neg (not_lt.mpr hlen)]
  apply bind_ok_of_ok (mapM_exists_ok (fun p _ => sma_ratio_feat_ok (s.map Candle.close) p))
  intro sma_feats
  apply bind_ok_of_ok (mapM_exists_ok (fun p _ => ema_ratio_feat_ok (s.map Candle.close) p))
  intro ema_feats
  apply bind_ok_of_ok (rsi_ok _ _ hrsi)
  intro rsi
  apply bind_ok_of_ok (div?_exists_ok (by norm_num))
  intro rsi_feat
  apply bind_ok_of_ok (macd_ok _ _ _ _)
  intro macd
  apply bind_ok_of_ok (bollinger_ok R _ _ _ hcne)
  intro bb
  apply bind_ok_of_ok (atr_ratio_feat_ok _ _ _ _ hatr)
  intro atrr
  apply bind_ok_of_ok (mapM_exists_ok (fun p _ => return_ok (s.map Candle.close) p))
  intro rets
  apply bind_ok_of_ok (mapM_exists_ok (fun p _ => log_return_ok R (s.map Candle.close) p))
  intro logrets
  apply bind_ok_of_ok (candle_features_ok _ _ _ _)
  intro candle
  apply bind_ok_of_ok (volume_change_of_ok _)
  intro vc
  exact ⟨_, rfl⟩

/-! ## Evaluation on a perfectly flat series -/

theorem foldl_ema_const (m c : ℚ) : ∀ (k : ℕ),
    List.foldl (fun ema value => (value - ema) * m + ema) c (List.replicate k c) = c
  | 0 => rfl
  | k + 1 => by
    rw [List.replicate_succ, List.foldl_cons]
    have hc : (c - c) * m + c = c := by ring
    rw [hc]
    exact foldl_ema_const m c k

theorem headD_replicate (n : ℕ) (c d : ℚ) (hn : 1 ≤ n) :
    (List.replicate n c).headD d = c := by
  cases n with
  | zero => omega
  | succ k => rw [List.replicate_succ]; rfl

theorem getLastD_replicate : ∀ (n : ℕ) (c d : ℚ), 1 ≤ n →
    (List.replicate n c).getLastD d = c
  | 0, _, _, h => absurd h (by omega)
  | 1, c, d, _ => rfl
  | n + 2, c, d, _ => by
    rw [List.replicate_succ, List.getLastD_cons]
    exact getLastD_replicate (n + 1) c c (by omega)

theorem getD_replicate (n i : ℕ) (c d : ℚ) (h : i < n) :
    (List.replicate n c).getD i d = c := by
  rw [List.getD_eq_getElem?_getD, List.getElem?_eq_getElem (by simpa using h)]
  simp [List.getElem_replicate]

theorem ema_replicate (n p : ℕ) (c : ℚ) (hn : 1 ≤ n) (hp : 1 ≤ p) :
    _calculate_ema (List.replicate n c) p = c := by
  unfold _calculate_ema
  rw [if_neg (by simp only [List.length_replicate]; omega)]
  simp only [List.tail_replicate, headD_replicate n c 0 hn]
  exact foldl_ema_const _ c (n - 1)

theorem sma_ratio_flat (n p : ℕ) (hp : 1 ≤ p) (hpn : p ≤ n) :
    sma_ratio_feat (List.replicate n (100 : ℚ)) p = .ok 0 := by
  unfold sma_ratio_feat _calculate_sma
  rw [if_neg (by simp only [List.length_replicate]; omega)]
  rw [lastPy_replicate hp hpn, meanE_replicate (by omega), ok_bind]
  rw [getLastD_replicate n 100 0 (by omega)]
  rw [if_pos (by norm_num : (100 : ℚ) > 0), div?_ok (by norm_num : (100 : ℚ) ≠ 0),
    map_ok_eq]
  norm_num

theorem ema_ratio_flat (n p : ℕ) (hn : 1 ≤ n) (hp : 1 ≤ p) :
    ema_ratio_feat (List.replicate n (100 : ℚ)) p = .ok 0 := by
  simp only [ema_ratio_feat]
  rw [ema_replicate n p 100 hn hp, getLastD_replicate n 100 0 hn]
  rw [if_pos (by norm_num : (100 : ℚ) > 0), div?_ok (by norm_num : (100 : ℚ) ≠ 0),
    map_ok_eq]
  norm_num

theorem rsi_flat (n : ℕ) (hn : 15 ≤ n) :
    _calculate_rsi (List.replicate n (100 : ℚ)) 14 = .ok 100 := by
  unfold _calculate_rsi
  rw [if_neg (by simp only [List.length_replicate]; omega)]
  simp only []
  have hdiffs : List.zipWith (fun a b => a - b) (List.replicate n (100 : ℚ)).tail
      (List.replicate n (100 : ℚ)) = List.replicate (n - 1) 0 := by
    rw [List.tail_replicate, List.zipWith_replicate]
    have hmin : min (n - 1) n = n - 1 := by omega
    rw [hmin]
    norm_num
  rw [hdiffs]
  have hg : (List.replicate (n - 1) (0 : ℚ)).map
      (fun change => if change > 0 then change else 0) = List.replicate (n - 1) 0 := by
    rw [List.map_replicate]
    norm_num
  have hl : (List.replicate (n - 1) (0 : ℚ)).map
      (fun change => if change > 0 then 0 else |change|) = List.replicate (n - 1) 0 := by
    rw [List.map_replicate]
    norm_num
  rw [hg, hl]
  have hdrop : (List.replicate (n - 1) (0 : ℚ)).drop
      ((List.replicate (n - 1) (0 : ℚ)).length - 14) = List.replicate 14 0 := by
    rw [List.length_replicate, List.drop_replicate]
    congr 1
    omega
  rw [hdrop, meanE_replicate (by omega), ok_bind, ok_bind]
  rw [if_pos rfl]
  rfl

theorem macd_flat (n : ℕ) (hn : 50 ≤ n) :
    _calculate_macd (List.replicate n (100 : ℚ)) 12 26 9 = .ok (0, 0) := by
  simp only [_calculate_macd, List.length_replicate]
  have hhist : (List.range (n + 1 - 26)).map
      (fun j => _calculate_ema ((List.replicate n (100 : ℚ)).take (26 + j)) 12
        - _calculate_ema ((List.replicate n (100 : ℚ)).take (26 + j)) 26)
      = List.replicate (n + 1 - 26) 0 := by
    apply List.eq_replicate_iff.mpr
    constructor
    · rw [List.length_map, List.length_range]
    · intro b hb
      obtain ⟨j, hj, rfl⟩ := List.mem_map.mp hb
      rw [List.take_replicate]
      have h1 : 1 ≤ min (26 + j) n := by omega
      rw [ema_replicate _ 12 100 h1 (by omega), ema_replicate _ 26 100 h1 (by omega)]
      ring
  rw [hhist, List.length_replicate]
  rw [if_pos (by omega : 9 ≤ n + 1 - 26)]
  rw [ema_replicate (n + 1 - 26) 9 0 (by omega) (by omega)]
  rw [ema_replicate n 12 100 (by omega) (by omega)]
  rw [ema_replicate n 26 100 (by omega) (by omega)]
  rw [if_neg (by omega : ¬ n = 0)]
  rw [getLastD_replicate n 100 0 (by omega)]
  rw [if_pos (by norm_num : (100 : ℚ) > 0), div?_ok (by norm_num : (100 : ℚ) ≠ 0),
    map_ok_eq, ok_bind]
  rw [if_neg (by norm_num : ¬ |(0 : ℚ)| > 1 / 10000), pure_eq_ok, ok_bind]
  simp only [pure_eq_ok, Except.ok.injEq, Prod.mk.injEq]
  constructor
  · norm_num
  · rw [min_eq_right (by norm_num : (0 : ℚ) ≤ 1), max_eq_right (by norm_num : (-1 : ℚ) ≤ 0)]

theorem bollinger_flat (R : RealOps) (n : ℕ) (hn : 20 ≤ n) (hsq : R.sqrtF 0 = 0) :
    _calculate_bollinger R (List.replicate n (100 : ℚ)) 20 2 = .ok (1 / 2, 0) := by
  simp only [_calculate_bollinger, List.length_replicate]
  rw [if_neg (by omega)]
  rw [lastPy_replicate (by omega) hn]
  rw [meanE_replicate (by omega : (20 : ℕ) ≠ 0), ok_bind]
  have hmap : (List.replicate 20 (100 : ℚ)).map (fun x => (x - 100) ^ 2)
      = List.replicate 20 0 := by
    rw [List.map_replicate]
    norm_num
  rw [hmap, meanE_replicate (by omega : (20 : ℕ) ≠ 0), ok_bind]
  rw [hsq, getLastD_replicate n 100 0 (by omega)]
  rw [if_neg (by norm_num : ¬ (100 + 2 * 0 - (100 - 2 * 0) : ℚ) > 0), pure_eq_ok, ok_bind]
  rw [if_pos (by norm_num : (100 : ℚ) > 0), div?_ok (by norm_num : (100 : ℚ) ≠ 0), ok_bind]
  simp only [pure_eq_ok, Except.ok.injEq, Prod.mk.injEq]
  constructor
  · rw [min_eq_right (by norm_num : (1 / 2 : ℚ) ≤ 1),
      max_eq_right (by norm_num : (0 : ℚ) ≤ 1 / 2)]
  · norm_num

theorem true_ranges_flat (n : ℕ) (hn : 1 ≤ n) :
    true_ranges_of (List.replicate n (100 : ℚ)) (List.replicate n 100)
      (List.replicate n 100) = List.replicate (n - 1) 0 := by
  unfold true_ranges_of
  rw [List.length_replicate]
  apply List.eq_replicate_iff.mpr
  refine ⟨by rw [List.length_map, List.length_range], ?_⟩
  intro b hb
  obtain ⟨j, hj, rfl⟩ := List.mem_map.mp hb
  rw [List.mem_range] at hj
  rw [getD_replicate n (j + 1) 100 0 (by omega), getD_replicate n j 100 0 (by omega)]
  simp

theorem atr_ratio_flat (n : ℕ) (hn : 15 ≤ n) :
    atr_ratio_feat (List.replicate n (100 : ℚ)) (List.replicate n 100)
      (List.replicate n 100) 14 = .ok 0 := by
  unfold atr_ratio_feat _calculate_atr
  rw [if_neg (by simp only [List.length_replicate]; omega)]
  simp only []
  rw [true_ranges_flat n (by omega), List.length_replicate]
  rw [if_neg (by omega : ¬ n - 1 < 14)]
  rw [lastPy_replicate (by omega) (by omega), meanE_replicate (by omega : (14 : ℕ) ≠ 0),
    ok_bind]
  rw [getLastD_replicate n 100 0 (by omega)]
  rw [if_pos (by norm_num : (100 : ℚ) > 0), div?_ok (by norm_num : (100 : ℚ) ≠ 0)]
  simp only [Except.ok.injEq]
  norm_num

theorem return_flat (n p : ℕ) (hp : p < n) :
    _calculate_return (List.replicate n (100 : ℚ)) p = .ok 0 := by
  unfold _calculate_return
  rw [if_neg (by simp only [List.length_replicate]; omega)]
  simp only [List.length_replicate]
  rw [getLastD_replicate n 100 0 (by omega), getD_replicate n (n - 1 - p) 100 0 (by omega)]
  rw [if_pos (by norm_num : (100 : ℚ) > 0), div?_ok (by norm_num : (100 : ℚ) ≠ 0),
    map_ok_eq]
  simp only [Except.ok.injEq]
  norm_num

theorem log_return_flat (R : RealOps) (n p : ℕ) (hp : p < n) (hln : R.lnF 1 = 0) :
    _calculate_log_return R (List.replicate n (100 : ℚ)) p = .ok 0 := by
  unfold _calculate_log_return
  rw [if_neg (by simp only [List.length_replicate]; omega)]
  simp only [List.length_replicate]
  rw [getLastD_replicate n 100 0 (by omega), getD_replicate n (n - 1 - p) 100 0 (by omega)]
  rw [if_pos ⟨by norm_num, by norm_num⟩, div?_ok (by norm_num : (100 : ℚ) ≠ 0), map_ok_eq]
  rw [show (100 : ℚ) / 100 = 1 by norm_num, hln]

theorem candle_flat : candle_features 100 100 100 100 = .ok (0, 0, 0) := by
  simp only [candle_features]
  simp only [if_neg (by norm_num : ¬ ((100 : ℚ) - 100 > 0)), pure_eq_ok, ok_bind]

theorem volume_flat (n : ℕ) (hn : 2 ≤ n) :
    volume_change_of (List.replicate n (1000 : ℚ)) = .ok 0 := by
  simp only [volume_change_of, List.length_replicate]
  rw [if_pos hn, getD_replicate n (n - 2) 1000 0 (by omega),
    getLastD_replicate n 1000 0 (by omega)]
  rw [if_pos (by norm_num : (1000 : ℚ) > 0), div?_ok (by norm_num : (1000 : ℚ) ≠ 0),
    map_ok_eq, ok_bind]
  simp only [pure_eq_ok, Except.ok.injEq]
  rw [show (1000 : ℚ) / 1000 - 1 = 0 by norm_num]
  rw [min_eq_right (by norm_num : (0 : ℚ) ≤ 2), max_eq_right (by norm_num : (-2 : ℚ) ≤ 0)]

theorem default_min_klines : defaultConfig.min_klines_required = 50 := by decide

/-- Full evaluation of `extract` on a flat `n`-candle series (close 100,
zero range, volume 1000) under the default configuration: every guarded
ratio is 0, RSI hits its `average_loss = 0` branch and contributes
`100 / 100 = 1`, and Bollinger %B defaults to `1/2`. -/
theorem extract_flat (R : RealOps) (n : ℕ) (hn : 50 ≤ n)
    (hsq : R.sqrtF 0 = 0) (hln : R.lnF 1 = 0) :
    extract R defaultConfig (List.replicate n flatCandle) =
      .ok [0, 0, 0, 0, 0, 0, 1, 0, 0, 1 / 2, 0, 0, 0, 0, 0, 0, 0, 0, 0, 0, 0, 0] := by
  have hmapc : (List.replicate n flatCandle).map Candle.close
      = List.replicate n (100 : ℚ) := by rw [List.map_replicate]; rfl
  have hmaph : (List.replicate n flatCandle).map Candle.high
      = List.replicate n (100 : ℚ) := by rw [List.map_replicate]; rfl
  have hmapl : (List.replicate n flatCandle).map Candle.low
      = List.replicate n (100 : ℚ) := by rw [List.map_replicate]; rfl
  have hmapo : (List.replicate n flatCandle).map Candle.opn
      = List.replicate n (100 : ℚ) := by rw [List.map_replicate]; rfl
  have hmapv : (List.replicate n flatCandle).map Candle.volume
      = List.replicate n (1000 : ℚ) := by rw [List.map_replicate]; rfl
  have hdiv : div? (100 : ℚ) 100 = .ok 1 := by
    rw [div?_ok (by norm_num : (100 : ℚ) ≠ 0), show (100 : ℚ) / 100 = 1 by norm_num]
  simp only [extract, default_min_klines, List.length_replicate]
  rw [if_neg (by omega : ¬ n < 50)]
  simp only [hmapc, hmaph, hmapl, hmapo, hmapv, defaultConfig,
    getLastD_replicate n (100 : ℚ) 0 (by omega),
    List.mapM_cons, List.mapM_nil,
    sma_ratio_flat n 5 (by omega) (by omega), sma_ratio_flat n 10 (by omega) (by omega),
    sma_ratio_flat n 20 (by omega) (by omega), sma_ratio_flat n 50 (by omega) (by omega),
    ema_ratio_flat n 12 (by omega) (by omega), ema_ratio_flat n 26 (by omega) (by omega),
    rsi_flat n (by omega), hdiv,
    macd_flat n (by omega), bollinger_flat R n (by omega) hsq,
    atr_ratio_flat n (by omega),
    return_flat n 1 (by omega), return_flat n 5 (by omega), return_flat n 10 (by omega),
    log_return_flat R n 1 (by omega) hln, log_return_flat R n 5 (by omega) hln,
    log_return_flat R n 10 (by omega) hln,
    candle_flat, volume_flat n (by omega),
    ok_bind, pure_eq_ok, List.cons_append, List.nil_append]

/-! ## Claim theorems -/

theorem foldr_max_append (l1 l2 : List ℕ) :
    (l1 ++ l2).foldr max 0 = max (l1.foldr max 0) (l2.foldr max 0) := by
  induction l1 with
  | nil => simp
  | cons a l ih =>
    simp only [List.cons_append, List.foldr_cons, ih]
    omega

/-- C7: `min_klines_required` equals the spec's maximum (over all SMA
periods, all EMA periods, `rsi_period + 1`, `macd_slow + macd_signal`,
the Bollinger period, the ATR period, `max(return_periods) + 1`, and the
floor 50), it is never below 50, and for the default configuration it is
exactly 50. -/
theorem C7_min_window_length (cfg : FeatureConfig) :
    cfg.min_klines_required = minWindowSpec cfg ∧
    50 ≤ cfg.min_klines_required ∧
    defaultConfig.min_klines_required = 50 := by
  refine ⟨?_, min_klines_ge_50 cfg, default_min_klines⟩
  unfold FeatureConfig.min_klines_required minWindowSpec
  rw [foldr_max_append, foldr_max_append]
  simp only [List.foldr_cons, List.foldr_nil, Nat.max_zero]
  exact (max_assoc _ _ _).symm

/-- The spec's failure condition for `validate()` (section 4.2):
`fast ≥ slow` for MACD, or some configured period non-positive. -/
def invalidConfigCond (cfg : FeatureConfig) : Prop :=
  cfg.macd_slow ≤ cfg.macd_fast ∨
  ((∃ p ∈ cfg.sma_periods, p ≤ 0) ∨ (∃ p ∈ cfg.ema_periods, p ≤ 0) ∨
    cfg.rsi_period ≤ 0 ∨ cfg.macd_fast ≤ 0 ∨ cfg.macd_slow ≤ 0 ∨ cfg.macd_signal ≤ 0 ∨
    cfg.bb_period ≤ 0 ∨ cfg.atr_period ≤ 0 ∨ (∃ p ∈ cfg.return_periods, p ≤ 0))

/-- C6: `validate` fails with `InvalidConfig` exactly when the MACD fast
period is at least the slow period or some configured period is
non-positive, succeeds exactly otherwise, and accepts the default
configuration. -/
theorem C6_validate (cfg : FeatureConfig) :
    (validate cfg = .error .invalidConfig ↔ invalidConfigCond cfg) ∧
    (validate cfg = .ok () ↔ ¬ invalidConfigCond cfg) ∧
    validate defaultConfig = .ok () := by
  have hiff : validate cfg = .error .invalidConfig ↔ invalidConfigCond cfg := by
    unfold validate invalidConfigCond
    simp only [Nat.le_zero]
    split_ifs with h1 h2
    · exact iff_of_true rfl (Or.inl h1)
    · refine iff_of_true rfl (Or.inr ?_)
      simpa only [List.any_eq_true, decide_eq_true_eq] using h2
    · refine iff_of_false (by simp) ?_
      simp only [List.any_eq_true, decide_eq_true_eq] at h2
      exact fun hc => hc.elim h1 h2
  have htotal : validate cfg = .error .invalidConfig ∨ validate cfg = .ok () := by
    unfold validate
    split_ifs <;> simp
  refine ⟨hiff, ⟨?_, ?_⟩, by decide⟩
  · intro hok hc
    rw [hiff.mpr hc] at hok
    exact absurd hok (by simp)
  · intro hc
    rcases htotal with h | h
    · exact absurd (hiff.mp h) hc
    · exact h

/-- C8: single-point extraction fails with
`InsufficientData{required = min_klines_required, actual = len}` exactly
when the series is shorter than `min_klines_required` (for a valid
configuration it succeeds otherwise), and a 10-candle series under the
default configuration fails with `required = 50, actual = 10`. -/
theorem C8_insufficient_data (R : RealOps) (cfg : FeatureConfig) (s : List Candle)
    (hrsi : 1 ≤ cfg.rsi_period) (hatr : 1 ≤ cfg.atr_period) :
    (s.length < cfg.min_klines_required →
      extract R cfg s = .error (.insufficientData cfg.min_klines_required s.length)) ∧
    (cfg.min_klines_required ≤ s.length → ∃ v, extract R cfg s = .ok v) ∧
    extract zeroOps defaultConfig flat10 = .error (.insufficientData 50 10) := by
  refine ⟨?_, extract_ok_of_len R cfg s hrsi hatr, ?_⟩
  · intro h
    unfold extract
    rw [if_pos h]
  · unfold extract
    rw [if_pos (by decide)]
    rw [default_min_klines]
    rfl

theorem C8_insufficient_data_witness :
    1 ≤ defaultConfig.rsi_period ∧ 1 ≤ defaultConfig.atr_period ∧
    ((flat10.length < defaultConfig.min_klines_required →
      extract zeroOps defaultConfig flat10
        = .error (.insufficientData defaultConfig.min_klines_required flat10.length)) ∧
    (defaultConfig.min_klines_required ≤ flat10.length →
      ∃ v, extract zeroOps defaultConfig flat10 = .ok v) ∧
    extract zeroOps defaultConfig flat10 = .error (.insufficientData 50 10)) :=
  ⟨by decide, by decide,
    C8_insufficient_data zeroOps defaultConfig flat10 (by decide) (by decide)⟩

/-- C4: for a valid configuration (positive RSI/ATR periods) and a
series at least `min_klines_required` long, the checked extraction
returns `.ok`: no division (or empty mean) that could produce NaN or
±Infinity is ever reached, because every division site is guarded. -/
theorem C4_no_nan (R : RealOps) (cfg : FeatureConfig) (s : List Candle)
    (hrsi : 1 ≤ cfg.rsi_period) (hatr : 1 ≤ cfg.atr_period)
    (hlen : cfg.min_klines_required ≤ s.length) :
    ∃ v, extract R cfg s = .ok v :=
  extract_ok_of_len R cfg s hrsi hatr hlen

theorem C4_no_nan_witness :
    1 ≤ defaultConfig.rsi_period ∧ 1 ≤ defaultConfig.atr_period ∧
    defaultConfig.min_klines_required ≤ flat60.length ∧
    ∃ v, extract zeroOps defaultConfig flat60 = .ok v :=
  ⟨by decide, by decide, by decide,
    C4_no_nan zeroOps defaultConfig flat60 (by decide) (by decide) (by decide)⟩

/-- C1 (amended): on the 60-candle flat series with the default
configuration, `extract` returns the vector whose SMA/EMA ratios, MACD,
bandwidth, ATR, returns, log returns and candle-shape features are all
`0` and whose Bollinger %B is `1/2` — but whose RSI feature is `1.0`
(the `average_loss = 0` branch yields RSI 100), not `0.5` as the claim
states. -/
theorem C1_flat_sixty (R : RealOps) (hsq : R.sqrtF 0 = 0) (hln : R.lnF 1 = 0) :
    extract R defaultConfig flat60 =
      .ok [0, 0, 0, 0, 0, 0, 1, 0, 0, 1 / 2, 0, 0, 0, 0, 0, 0, 0, 0, 0, 0, 0, 0] :=
  extract_flat R 60 (by omega) hsq hln

theorem C1_flat_sixty_witness :
    zeroOps.sqrtF 0 = 0 ∧ zeroOps.lnF 1 = 0 ∧
    extract zeroOps defaultConfig flat60 =
      .ok [0, 0, 0, 0, 0, 0, 1, 0, 0, 1 / 2, 0, 0, 0, 0, 0, 0, 0, 0, 0, 0, 0, 0] :=
  ⟨rfl, rfl, C1_flat_sixty zeroOps rfl rfl⟩

/-- C1 counterexample: the RSI feature (index 6 of the vector, after the
four SMA and two EMA ratios) on the flat 60-candle series is `1.0`, not
the `0.5` the claim asserts. -/
theorem C1_flat_sixty_counterexample :
    (extract zeroOps defaultConfig flat60).map (fun v => v.getD 6 0) = .ok 1 ∧
    (1 : ℚ) ≠ 1 / 2 := by
  constructor
  · unfold flat60
    rw [extract_flat zeroOps 60 (by omega) rfl rfl]
    rfl
  · norm_num

/-- C5 (amended): with equal-length arrays and at least `period + 1`
bars, the ATR is the simple mean of the trailing `period` true ranges
`max(high - low, |high - prevClose|, |low - prevClose|)`; with fewer
than `period + 1` bars it returns `0.0` (not the mean of the available
true ranges, as the claim states); the ATR feature divides by the
current close when that is positive. -/
theorem C5_atr (highs lows closes : List ℚ) (period : ℕ)
    (hl : highs.length = lows.length) (hc : highs.length = closes.length) :
    (period + 1 ≤ highs.length →
      _calculate_atr highs lows closes period
        = meanE (lastPy period (true_ranges_of highs lows closes))) ∧
    (highs.length < period + 1 → _calculate_atr highs lows closes period = .ok 0) ∧
    (∀ a : ℚ, _calculate_atr highs lows closes period = .ok a →
      0 < closes.getLastD 0 →
      atr_ratio_feat highs lows closes period = .ok (a / closes.getLastD 0)) := by
  refine ⟨?_, ?_, ?_⟩
  · intro hlen
    unfold _calculate_atr
    rw [if_neg (by omega)]
    simp only []
    rw [if_neg (by rw [true_ranges_length]; omega)]
  · intro hlen
    unfold _calculate_atr
    rw [if_pos (Or.inl hlen)]
  · intro a ha hpos
    unfold atr_ratio_feat
    rw [ha, ok_bind, if_pos hpos, div?_ok (ne_of_gt hpos)]

theorem C5_atr_witness :
    ([10, 20] : List ℚ).length = ([5, 12] : List ℚ).length ∧
    ([10, 20] : List ℚ).length = ([7, 15] : List ℚ).length ∧
    ((2 + 1 ≤ ([10, 20] : List ℚ).length →
      _calculate_atr [10, 20] [5, 12] [7, 15] 2
        = meanE (lastPy 2 (true_ranges_of [10, 20] [5, 12] [7, 15]))) ∧
    (([10, 20] : List ℚ).length < 2 + 1 →
      _calculate_atr [10, 20] [5, 12] [7, 15] 2 = .ok 0) ∧
    (∀ a : ℚ, _calculate_atr [10, 20] [5, 12] [7, 15] 2 = .ok a →
      0 < ([7, 15] : List ℚ).getLastD 0 →
      atr_ratio_feat [10, 20] [5, 12] [7, 15] 2
        = .ok (a / ([7, 15] : List ℚ).getLastD 0))) :=
  ⟨rfl, rfl, C5_atr [10, 20] [5, 12] [7, 15] 2 rfl rfl⟩

/-- C5 counterexample: a 2-bar series with ATR period 14 has one true
range available (13), but `_calculate_atr` returns `0.0`, not the mean
of the available true ranges. -/
theorem C5_atr_counterexample :
    _calculate_atr [10, 20] [5, 12] [7, 15] 14 = .ok 0 ∧
    meanE (true_ranges_of [10, 20] [5, 12] [7, 15]) = .ok 13 := by
  constructor
  · unfold _calculate_atr
    rw [if_pos (Or.inl (by norm_num))]
  · have htr : true_ranges_of [10, 20] [5, 12] [7, 15] = [13] := by
      unfold true_ranges_of
      have h1 : ([10, 20] : List ℚ).length - 1 = 1 := rfl
      rw [h1, show List.range 1 = [0] from rfl, List.map_singleton]
      have g1 : ([10, 20] : List ℚ).getD (0 + 1) 0 = 20 := rfl
      have g2 : ([5, 12] : List ℚ).getD (0 + 1) 0 = 12 := rfl
      have g3 : ([7, 15] : List ℚ).getD 0 0 = 7 := rfl
      rw [g1, g2, g3]
      rw [show (20 : ℚ) - 12 = 8 by norm_num, show (20 : ℚ) - 7 = 13 by norm_num,
        show (12 : ℚ) - 7 = 5 by norm_num]
      rw [abs_of_pos (by norm_num : (0 : ℚ) < 13), abs_of_pos (by norm_num : (0 : ℚ) < 5)]
      rw [max_eq_left (by norm_num : (5 : ℚ) ≤ 13), max_eq_right (by norm_num : (8 : ℚ) ≤ 13)]
    rw [htr, meanE_ok (by simp)]
    norm_num

/-- Core characterization of `extract_with_labels` for a valid
configuration: it never fails, produces exactly
`len - future_periods - min_klines_required` samples, and sample `j`
pairs the features of the window `[j, j + window)` with the label of the
forward return `closes[window + j + fp] / closes[window + j] - 1`. -/
theorem labels_core (R : RealOps) (cfg : FeatureConfig) (s : List Candle)
    (fp : ℕ) (th : ℚ) (hrsi : 1 ≤ cfg.rsi_period) (hatr : 1 ≤ cfg.atr_period) :
    ∃ L, extract_with_labels R cfg s fp th = .ok L ∧
      L.length = s.length - fp - cfg.min_klines_required ∧
      ∀ (j : ℕ) (hj : j < L.length),
        extract R cfg ((s.drop j).take cfg.min_klines_required) = .ok (L.get ⟨j, hj⟩).1 ∧
        (L.get ⟨j, hj⟩).2 = labelOf
          ((s.map Candle.close).getD (cfg.min_klines_required + j + fp) 0
            / (s.map Candle.close).getD (cfg.min_klines_required + j) 0 - 1) th := by
  have hE : extract_with_labels R cfg s fp th
      = (List.range (s.length - fp - cfg.min_klines_required)).mapM
          (fun j => extract R cfg
              ((s.drop (cfg.min_klines_required + j - cfg.min_klines_required)).take
                cfg.min_klines_required) >>= fun features =>
            pure (features, labelOf
              ((s.map Candle.close).getD (cfg.min_klines_required + j + fp) 0
                / (s.map Candle.close).getD (cfg.min_klines_required + j) 0 - 1) th)) := rfl
  have hcancel : ∀ j : ℕ, cfg.min_klines_required + j - cfg.min_klines_required = j :=
    fun j => by omega
  have hok : ∀ j ∈ List.range (s.length - fp - cfg.min_klines_required),
      ∃ b, (extract R cfg
          ((s.drop (cfg.min_klines_required + j - cfg.min_klines_required)).take
            cfg.min_klines_required) >>= fun features =>
        pure (features, labelOf
          ((s.map Candle.close).getD (cfg.min_klines_required + j + fp) 0
            / (s.map Candle.close).getD (cfg.min_klines_required + j) 0 - 1) th)) = .ok b := by
    intro j hj
    rw [List.mem_range] at hj
    obtain ⟨v, hv⟩ := extract_ok_of_len R cfg
      ((s.drop (cfg.min_klines_required + j - cfg.min_klines_required)).take
        cfg.min_klines_required) hrsi hatr (by
      rw [List.length_take, List.length_drop]
      omega)
    rw [hv, ok_bind]
    exact ⟨_, rfl⟩
  obtain ⟨L, hL, hlen, hget⟩ := mapM_ok_of_forall hok
  rw [List.length_range] at hlen
  refine ⟨L, by rw [hE, hL], hlen, ?_⟩
  intro j hj
  have hj' : j < (List.range (s.length - fp - cfg.min_klines_required)).length := by
    rw [List.length_range]
    omega
  have hFj := hget j hj' (by omega)
  have hrj : (List.range (s.length - fp - cfg.min_klines_required)).get ⟨j, hj'⟩ = j := by
    rw [List.get_eq_getElem, List.getElem_range]
  rw [hrj, hcancel j] at hFj
  obtain ⟨v, hv⟩ := extract_ok_of_len R cfg ((s.drop j).take cfg.min_klines_required)
    hrsi hatr (by
      rw [List.length_take, List.length_drop]
      rw [hlen] at hj
      omega)
  rw [hv, ok_bind, pure_eq_ok] at hFj
  have hpair := (Except.ok.injEq _ _).mp hFj
  constructor
  · rw [hv, ← hpair]
  · rw [← hpair]

theorem batch_core (R : RealOps) (cfg : FeatureConfig) (s : List Candle) (window : ℕ)
    (hw : cfg.min_klines_required ≤ window) (hrsi : 1 ≤ cfg.rsi_period)
    (hatr : 1 ≤ cfg.atr_period) :
    ∃ L, (List.range (s.length + 1 - window)).mapM
        (fun j => extract R cfg ((s.drop j).take window)) = .ok L ∧
      L.length = s.length + 1 - window ∧
      ∀ (j : ℕ) (hj : j < L.length),
        extract R cfg ((s.drop j).take window) = .ok (L.get ⟨j, hj⟩) := by
  have hok : ∀ j ∈ List.range (s.length + 1 - window),
      ∃ b, extract R cfg ((s.drop j).take window) = .ok b := by
    intro j hj
    rw [List.mem_range] at hj
    exact extract_ok_of_len R cfg ((s.drop j).take window) hrsi hatr (by
      rw [List.length_take, List.length_drop]
      omega)
  obtain ⟨L, hL, hlen, hget⟩ := mapM_ok_of_forall hok
  rw [List.length_range] at hlen
  refine ⟨L, hL, hlen, ?_⟩
  intro j hj
  have hj' : j < (List.range (s.length + 1 - window)).length := by
    rw [List.length_range]
    omega
  have h := hget j hj' (by omega)
  have hrj : (List.range (s.length + 1 - window)).get ⟨j, hj'⟩ = j := by
    rw [List.get_eq_getElem, List.getElem_range]
  rw [hrj] at h
  exact h

theorem batch_some_spec (R : RealOps) (cfg : FeatureConfig) (s : List Candle) (w : ℕ)
    (hw : cfg.min_klines_required ≤ w) (hrsi : 1 ≤ cfg.rsi_period)
    (hatr : 1 ≤ cfg.atr_period) :
    ∃ L, extract_batch R cfg s (some w) = .ok L ∧
      L.length = s.length + 1 - w ∧
      ∀ (j : ℕ) (hj : j < L.length),
        extract R cfg ((s.drop j).take w) = .ok (L.get ⟨j, hj⟩) := by
  cases w with
  | zero =>
    have := min_klines_ge_50 cfg
    omega
  | succ k =>
    have hB : extract_batch R cfg s (some (k + 1))
        = (List.range (s.length + 1 - (k + 1))).mapM
            (fun j => extract R cfg ((s.drop j).take (k + 1))) := rfl
    obtain ⟨L, h1, h2, h3⟩ := batch_core R cfg s (k + 1) hw hrsi hatr
    exact ⟨L, by rw [hB, h1], h2, h3⟩

theorem batch_none_spec (R : RealOps) (cfg : FeatureConfig) (s : List Candle)
    (hrsi : 1 ≤ cfg.rsi_period) (hatr : 1 ≤ cfg.atr_period) :
    ∃ L, extract_batch R cfg s none = .ok L ∧
      L.length = s.length + 1 - cfg.min_klines_required ∧
      ∀ (j : ℕ) (hj : j < L.length),
        extract R cfg ((s.drop j).take cfg.min_klines_required) = .ok (L.get ⟨j, hj⟩) := by
  have hB : extract_batch R cfg s none
      = (List.range (s.length + 1 - cfg.min_klines_required)).mapM
          (fun j => extract R cfg ((s.drop j).take cfg.min_klines_required)) := rfl
  obtain ⟨L, h1, h2, h3⟩ := batch_core R cfg s cfg.min_klines_required (le_refl _) hrsi hatr
  exact ⟨L, by rw [hB, h1], h2, h3⟩

/-- C10 (amended): for a valid configuration, whenever the requested
window size is at least `min_klines_required` (and also for the default
window), `extract_batch` returns exactly `max(0, len - window + 1)`
feature vectors (as the truncated `len + 1 - window`), the `j`-th being
the extraction of the window starting at `j`, in index order.  For a
window below `min_klines_required` on a long-enough series the call
fails instead (see the counterexample). -/
theorem C10_batch_count (R : RealOps) (cfg : FeatureConfig) (s : List Candle) (w : ℕ)
    (hrsi : 1 ≤ cfg.rsi_period) (hatr : 1 ≤ cfg.atr_period) :
    (cfg.min_klines_required ≤ w →
      ∃ L, extract_batch R cfg s (some w) = .ok L ∧
        L.length = s.length + 1 - w ∧
        ∀ (j : ℕ) (hj : j < L.length),
          extract R cfg ((s.drop j).take w) = .ok (L.get ⟨j, hj⟩)) ∧
    (∃ L, extract_batch R cfg s none = .ok L ∧
      L.length = s.length + 1 - cfg.min_klines_required) :=
  ⟨fun hw => batch_some_spec R cfg s w hw hrsi hatr,
    (batch_none_spec R cfg s hrsi hatr).imp fun _ h => ⟨h.1, h.2.1⟩⟩

theorem C10_batch_count_witness :
    1 ≤ defaultConfig.rsi_period ∧ 1 ≤ defaultConfig.atr_period ∧
    ((defaultConfig.min_klines_required ≤ 50 →
      ∃ L, extract_batch zeroOps defaultConfig flat60 (some 50) = .ok L ∧
        L.length = flat60.length + 1 - 50 ∧
        ∀ (j : ℕ) (hj : j < L.length),
          extract zeroOps defaultConfig ((flat60.drop j).take 50) = .ok (L.get ⟨j, hj⟩)) ∧
    (∃ L, extract_batch zeroOps defaultConfig flat60 none = .ok L ∧
      L.length = flat60.length + 1 - defaultConfig.min_klines_required)) :=
  ⟨by decide, by decide,
    C10_batch_count zeroOps defaultConfig flat60 50 (by decide) (by decide)⟩

/-- C10 counterexample: a 10-candle series with requested window 10
(below `min_klines_required = 50`) makes `extract_batch` raise the
insufficient-data error instead of returning
`max(0, 10 - 10 + 1) = 1` vector. -/
theorem C10_batch_count_counterexample :
    extract_batch zeroOps defaultConfig flat10 (some 10)
      = .error (.insufficientData 50 10) ∧ flat10.length + 1 - 10 = 1 :=
  ⟨rfl, rfl⟩

/-- A 55-candle flat series (used to exercise the labeled-extraction
window count). -/
def flat55 : List Candle := List.replicate 55 flatCandle

/-- C3 (amended): for a valid configuration, the labeled path never
fails, and the batch path never fails when the requested window is at
least `min_klines_required` (in particular with the default window);
with a smaller positive window on a long-enough series `extract_batch`
does raise (see the counterexample), so only the claim's restriction to
such windows holds. -/
theorem C3_silent_omission (R : RealOps) (cfg : FeatureConfig) (s : List Candle)
    (fp : ℕ) (th : ℚ) (w : ℕ)
    (hrsi : 1 ≤ cfg.rsi_period) (hatr : 1 ≤ cfg.atr_period) :
    (∃ L, extract_with_labels R cfg s fp th = .ok L) ∧
    (cfg.min_klines_required ≤ w → ∃ B, extract_batch R cfg s (some w) = .ok B) ∧
    (∃ B, extract_batch R cfg s none = .ok B) :=
  ⟨(labels_core R cfg s fp th hrsi hatr).imp fun _ h => h.1,
    fun hw => (batch_some_spec R cfg s w hw hrsi hatr).imp fun _ h => h.1,
    (batch_none_spec R cfg s hrsi hatr).imp fun _ h => h.1⟩

theorem C3_silent_omission_witness :
    1 ≤ defaultConfig.rsi_period ∧ 1 ≤ defaultConfig.atr_period ∧
    ((∃ L, extract_with_labels zeroOps defaultConfig flat60 5 (1 / 50) = .ok L) ∧
    (defaultConfig.min_klines_required ≤ 55 →
      ∃ B, extract_batch zeroOps defaultConfig flat60 (some 55) = .ok B) ∧
    (∃ B, extract_batch zeroOps defaultConfig flat60 none = .ok B)) :=
  ⟨by decide, by decide,
    C3_silent_omission zeroOps defaultConfig flat60 5 (1 / 50) 55 (by decide) (by decide)⟩

/-- C3 counterexample: the claim says the batch path never raises for
any requested window size, but a 60-candle series with requested window
10 raises the insufficient-data error on its first slice. -/
theorem C3_silent_omission_counterexample :
    extract_batch zeroOps defaultConfig flat60 (some 10)
      = .error (.insufficientData 50 10) := rfl

/-- C2 (amended): for a valid configuration,
`extract_with_labels(series, fp, th)` produces exactly
`max(0, len - fp - window)` samples (`window = min_klines_required`),
one for each loop index `i = window + j` with `j` from `0` to
`len - fp - window - 1`; sample `j` extracts the window `[j, j + window)`
(which ends at index `i - 1`, not `i`), and its label is taken from the
forward return `close[i + fp] / close[i] - 1` — evaluated at the index
`i` one past the window's last element.  The claim's window-ending index
range and its `+ 1` sample count do not match the code (see the
counterexample). -/
theorem C2_labeled_samples (R : RealOps) (cfg : FeatureConfig) (s : List Candle)
    (fp : ℕ) (th : ℚ) (hrsi : 1 ≤ cfg.rsi_period) (hatr : 1 ≤ cfg.atr_period) :
    ∃ L, extract_with_labels R cfg s fp th = .ok L ∧
      L.length = s.length - fp - cfg.min_klines_required ∧
      ∀ (j : ℕ) (hj : j < L.length),
        extract R cfg ((s.drop j).take cfg.min_klines_required) = .ok (L.get ⟨j, hj⟩).1 ∧
        (L.get ⟨j, hj⟩).2 = labelOf
          ((s.map Candle.close).getD (cfg.min_klines_required + j + fp) 0
            / (s.map Candle.close).getD (cfg.min_klines_required + j) 0 - 1) th :=
  labels_core R cfg s fp th hrsi hatr

theorem C2_labeled_samples_witness :
    1 ≤ defaultConfig.rsi_period ∧ 1 ≤ defaultConfig.atr_period ∧
    (∃ L, extract_with_labels zeroOps defaultConfig flat60 5 (1 / 50) = .ok L ∧
      L.length = flat60.length - 5 - defaultConfig.min_klines_required ∧
      ∀ (j : ℕ) (hj : j < L.length),
        extract zeroOps defaultConfig ((flat60.drop j).take
          defaultConfig.min_klines_required) = .ok (L.get ⟨j, hj⟩).1 ∧
        (L.get ⟨j, hj⟩).2 = labelOf
          ((flat60.map Candle.close).getD (defaultConfig.min_klines_required + j + 5) 0
            / (flat60.map Candle.close).getD (defaultConfig.min_klines_required + j) 0 - 1)
          (1 / 50)) :=
  ⟨by decide, by decide,
    C2_labeled_samples zeroOps defaultConfig flat60 5 (1 / 50) (by decide) (by decide)⟩

/-- C2 counterexample: on a 55-candle series with `future_periods = 5`
and the default window 50, the claim's count `len - fp - window + 1`
is `1`, but the code's loop `range(window, len - fp)` is empty and
zero samples are produced. -/
theorem C2_labeled_samples_counterexample :
    extract_with_labels zeroOps defaultConfig flat55 5 (1 / 50) = .ok [] ∧
    flat55.length - 5 - defaultConfig.min_klines_required + 1 = 1 :=
  ⟨rfl, rfl⟩

/-- C9 (amended): for a non-negative threshold, the label produced for a
sample is Up (2) exactly when the forward return strictly exceeds the
threshold, Down (0) exactly when it is strictly below its negation, and
Flat (1) exactly on the closed interval between them — so a forward
return of exactly `±threshold` maps to Flat.  For a negative threshold
the trichotomy fails (see the counterexample). -/
theorem C9_label_trichotomy (r th : ℚ) (hth : 0 ≤ th) :
    (labelOf r th = 2 ↔ th < r) ∧
    (labelOf r th = 0 ↔ r < -th) ∧
    (labelOf r th = 1 ↔ -th ≤ r ∧ r ≤ th) := by
  unfold labelOf
  split_ifs with hup hdown
  · exact ⟨iff_of_true rfl hup,
      iff_of_false (by decide) (fun hc => by linarith),
      iff_of_false (by decide) (fun hc => by linarith [hc.2])⟩
  · exact ⟨iff_of_false (by decide) hup,
      iff_of_true rfl hdown,
      iff_of_false (by decide) (fun hc => by linarith [hc.1])⟩
  · exact ⟨iff_of_false (by decide) hup,
      iff_of_false (by decide) hdown,
      iff_of_true rfl ⟨by linarith [not_lt.mp hdown], not_lt.mp hup⟩⟩

theorem C9_label_trichotomy_witness :
    (0 : ℚ) ≤ 1 / 50 ∧
    ((labelOf (1 / 50) (1 / 50) = 2 ↔ (1 / 50 : ℚ) < 1 / 50) ∧
    (labelOf (1 / 50) (1 / 50) = 0 ↔ (1 / 50 : ℚ) < -(1 / 50)) ∧
    (labelOf (1 / 50) (1 / 50) = 1 ↔ -(1 / 50 : ℚ) ≤ 1 / 50 ∧ (1 / 50 : ℚ) ≤ 1 / 50)) :=
  ⟨by norm_num, C9_label_trichotomy (1 / 50) (1 / 50) (by norm_num)⟩

/-- The candle that drives the forward return of the boundary
counterexample to exactly the (negative) threshold. -/
def deadCandle : Candle := ⟨100, 100, 100, 0, 1000⟩

/-- 55 flat candles followed by one with close 0: the single labeled
sample's forward return is `0/100 - 1 = -1`. -/
def series56 : List Candle := List.replicate 55 flatCandle ++ [deadCandle]

/-- C9 counterexample: with `threshold = -1` the only sample produced by
`extract_with_labels` has forward return exactly equal to `+threshold`
(`-1`), yet its label is Down (0), not Flat (1) as the claim requires
for forward returns equal to the threshold. -/
theorem C9_label_trichotomy_counterexample :
    extract_with_labels zeroOps defaultConfig series56 5 (-1)
      = .ok [([0, 0, 0, 0, 0, 0, 1, 0, 0, 1 / 2, 0, 0, 0, 0, 0, 0, 0, 0, 0, 0, 0, 0], 0)] ∧
    (series56.map Candle.close).getD 55 0 / (series56.map Candle.close).getD 50 0 - 1
      = (-1 : ℚ) := by
  have hg55 : (series56.map Candle.close).getD 55 0 = 0 := rfl
  have hg50 : (series56.map Candle.close).getD 50 0 = 100 := rfl
  constructor
  · have hE : extract_with_labels zeroOps defaultConfig series56 5 (-1)
        = (List.range 1).mapM (fun j => extract zeroOps defaultConfig
            ((series56.drop (50 + j - 50)).take 50) >>= fun features =>
          pure (features, labelOf
            ((series56.map Candle.close).getD (50 + j + 5) 0
              / (series56.map Candle.close).getD (50 + j) 0 - 1) (-1))) := rfl
    rw [hE, show List.range 1 = [0] from rfl, List.mapM_cons, List.mapM_nil]
    have hslice : (series56.drop (50 + 0 - 50)).take 50 = List.replicate 50 flatCandle := by
      rw [show (50 + 0 - 50 : ℕ) = 0 from rfl, List.drop_zero]
      unfold series56
      rw [List.take_append_of_le_length (by rw [List.length_replicate]; omega),
        List.take_replicate]
      rfl
    rw [hslice, extract_flat zeroOps 50 (by omega) rfl rfl, ok_bind]
    rw [show (50 + 0 + 5 : ℕ) = 55 from rfl, show (50 + 0 : ℕ) = 50 from rfl, hg55, hg50]
    have hlab : labelOf ((0 : ℚ) / 100 - 1) (-1) = 0 := by
      unfold labelOf
      rw [if_neg (by norm_num), if_pos (by norm_num)]
    rw [hlab, pure_eq_ok, ok_bind, pure_eq_ok, ok_bind]
    rfl
  · rw [hg55, hg50]
    norm_num
